import Mathlib

/-!
Verification development for the MLIR affine-expression subsystem
(`include/mlir/IR/AffineExpr.h`).

The header declares the data model (`AffineExpr::Kind`, the node classes,
the `AffineExprBaseRef` handle whose `operator==` is pointer identity) and
the factory interface `AffineBinaryOpExpr::get` together with the
simplification hooks (`simplifyAdd`, `simplifyMul`, `simplifyFloorDiv`,
`simplifyCeilDiv`, `simplifyMod`) and the analyses
(`isSymbolicOrConstant`, `isPureAffine`, `getLargestKnownDivisor`,
`isMultipleOf`).  The bodies of the simplifiers, the analyses and the
`MLIRContext` interning store are in translation units outside the header,
so those parts are modelled from the specification; each such definition
says so in its doc comment.  Expression trees are first-class values here,
and the interning store maps a structural key (the tree) to the index of
its unique canonical instance, so "same instance" is "same index".
-/

namespace MLIRAffine

/-- The five binary operator kinds of `AffineExpr::Kind`
(Add, Mul, Mod, FloorDiv, CeilDiv), as a sub-tag of the binary case. -/
inductive BinKind where
  | Add
  | Mul
  | Mod
  | FloorDiv
  | CeilDiv
deriving DecidableEq, Repr

/-- Ordinal of a binary operator kind, matching declaration order of the
C++ `enum class Kind` (`Add = 0, Mul, Mod, FloorDiv, CeilDiv`). -/
def BinKind.ordinal : BinKind → Nat
  | .Add => 0
  | .Mul => 1
  | .Mod => 2
  | .FloorDiv => 3
  | .CeilDiv => 4

/-- Structural shape of one affine expression node: `AffineConstantExpr`
(64-bit signed payload), `AffineDimExpr`, `AffineSymbolExpr` (position
payload), and `AffineBinaryOpExpr` with its operator sub-tag and two
operands. -/
inductive AffineExpr where
  | Constant (value : Int)
  | DimId (position : Nat)
  | SymbolId (position : Nat)
  | BinaryOp (op : BinKind) (lhs rhs : AffineExpr)
deriving DecidableEq, Repr

/-- The full `AffineExpr::Kind` enumeration, in C++ declaration order,
with `LAST_AFFINE_BINARY_OP = CeilDiv` as a marker (not a member). -/
inductive AffineExprKind where
  | Add
  | Mul
  | Mod
  | FloorDiv
  | CeilDiv
  | Constant
  | DimId
  | SymbolId
deriving DecidableEq, Repr

/-- Numeric value of each `AffineExpr::Kind` enumerator: C++ assigns
consecutive ordinals in declaration order, and the alias
`LAST_AFFINE_BINARY_OP = CeilDiv` does not advance the counter, so
`Constant` continues at 5. -/
def AffineExprKind.ordinal : AffineExprKind → Nat
  | .Add => 0
  | .Mul => 1
  | .Mod => 2
  | .FloorDiv => 3
  | .CeilDiv => 4
  | .Constant => 5
  | .DimId => 6
  | .SymbolId => 7

/-- The `LAST_AFFINE_BINARY_OP` marker value: the ordinal of `CeilDiv`. -/
def LAST_AFFINE_BINARY_OP : Nat := AffineExprKind.ordinal .CeilDiv

/-- `AffineBinaryOpExpr::classof`: `expr->getKind() <= Kind::LAST_AFFINE_BINARY_OP`
(the enum comparison is comparison of ordinals). -/
def AffineBinaryOpExpr.classof (k : AffineExprKind) : Bool :=
  k.ordinal ≤ LAST_AFFINE_BINARY_OP

/-- `getKind()` of a node: the enum tag stored for each node shape. -/
def AffineExpr.kindOf : AffineExpr → AffineExprKind
  | .Constant _ => .Constant
  | .DimId _ => .DimId
  | .SymbolId _ => .SymbolId
  | .BinaryOp .Add _ _ => .Add
  | .BinaryOp .Mul _ _ => .Mul
  | .BinaryOp .Mod _ _ => .Mod
  | .BinaryOp .FloorDiv _ _ => .FloorDiv
  | .BinaryOp .CeilDiv _ _ => .CeilDiv

/-- Whether a node is a `BinaryOp` node (membership in the five binary
operator kinds). -/
def AffineExpr.isBinaryOp : AffineExpr → Bool
  | .BinaryOp _ _ _ => true
  | _ => false

/-- The two construction-failure kinds of the subsystem. -/
inductive AffineError where
  | InvalidExpression
  | DivisionByZero
deriving DecidableEq, Repr

/-- Whether a node is an `AffineConstantExpr`. -/
def AffineExpr.isConstant : AffineExpr → Bool
  | .Constant _ => true
  | _ => false

/-- Payload of a `Constant` node (0 on the other variants, unused there). -/
def AffineExpr.constValue : AffineExpr → Int
  | .Constant v => v
  | _ => 0

/-- Modelled from the spec: `AffineExpr::isSymbolicOrConstant` (body
outside the header). True for Constant and SymbolId; false for DimId;
for BinaryOp, true iff both operands are symbolic-or-constant. -/
def AffineExpr.isSymbolicOrConstant : AffineExpr → Bool
  | .Constant _ => true
  | .SymbolId _ => true
  | .DimId _ => false
  | .BinaryOp _ l r => l.isSymbolicOrConstant && r.isSymbolicOrConstant

/-- Modelled from the spec: `AffineExpr::isPureAffine` (body outside the
header). True for the three leaves; for Add, both operands pure; for Mul,
both pure and at least one operand a literal Constant; for
FloorDiv/CeilDiv/Mod, left operand pure and right operand a Constant. -/
def AffineExpr.isPureAffine : AffineExpr → Bool
  | .Constant _ => true
  | .DimId _ => true
  | .SymbolId _ => true
  | .BinaryOp .Add l r => l.isPureAffine && r.isPureAffine
  | .BinaryOp .Mul l r => l.isPureAffine && r.isPureAffine && (l.isConstant || r.isConstant)
  | .BinaryOp .Mod l r => l.isPureAffine && r.isConstant
  | .BinaryOp .FloorDiv l r => l.isPureAffine && r.isConstant
  | .BinaryOp .CeilDiv l r => l.isPureAffine && r.isConstant

/-- 64-bit signed wraparound: the unique value in `[-2^63, 2^63)` congruent
to `x` modulo `2^64`. -/
def i64wrap (x : Int) : Int := (x + 2 ^ 63) % 2 ^ 64 - 2 ^ 63

/-- Whether an integer is representable as a C++ `int64_t`. -/
def inInt64 (v : Int) : Bool := decide (-(2 ^ 63) ≤ v) && decide (v < 2 ^ 63)

/-- Well-formedness of a tree as it exists in the C++ program: every
`Constant` payload is a 64-bit signed integer. -/
def AffineExpr.wf : AffineExpr → Bool
  | .Constant v => inInt64 v
  | .DimId _ => true
  | .SymbolId _ => true
  | .BinaryOp _ l r => l.wf && r.wf

/-- Rank of a shape in the fixed total operand order used to normalize
commutative operands, from the spec: nested binary expressions first,
then dimensions, then symbols, constants last. -/
def AffineExpr.rank : AffineExpr → Nat
  | .BinaryOp _ _ _ => 0
  | .DimId _ => 1
  | .SymbolId _ => 2
  | .Constant _ => 3

/-- Three-way comparison on naturals, spelled out so its laws can be
proved locally. -/
def natCmp (x y : Nat) : Ordering :=
  if x < y then .lt else if x = y then .eq else .gt

/-- Three-way comparison on integers, spelled out so its laws can be
proved locally. -/
def intCmp (x y : Int) : Ordering :=
  if x < y then .lt else if x = y then .eq else .gt

/-- Modelled from the spec: the fixed total order over expression shapes
used to normalize commuted operands before interning — ranks first
(constants last, then symbols, then dimensions, then nested binary
expressions), each level broken by position/value, binary nodes broken by
operator kind then operands lexicographically. -/
def exprCmp : AffineExpr → AffineExpr → Ordering
  | .Constant v1, .Constant v2 => intCmp v1 v2
  | .DimId p1, .DimId p2 => natCmp p1 p2
  | .SymbolId p1, .SymbolId p2 => natCmp p1 p2
  | .BinaryOp k1 l1 r1, .BinaryOp k2 l2 r2 =>
      (natCmp k1.ordinal k2.ordinal).then ((exprCmp l1 l2).then (exprCmp r1 r2))
  | a, b => natCmp a.rank b.rank

/-- Canonical `Add` node: the two operands in canonical order. -/
def addNode (a b : AffineExpr) : AffineExpr :=
  if exprCmp a b = .gt then .BinaryOp .Add b a else .BinaryOp .Add a b

/-- Canonical `Mul` node: the symbolic-or-constant operand is normalized
to the right; when both operands qualify the canonical order decides.
Only called when at least one operand is symbolic-or-constant. -/
def mulNode (a b : AffineExpr) : AffineExpr :=
  if !a.isSymbolicOrConstant then .BinaryOp .Mul a b
  else if !b.isSymbolicOrConstant then .BinaryOp .Mul b a
  else if exprCmp a b = .gt then .BinaryOp .Mul b a else .BinaryOp .Mul a b

/-- Modelled from the spec: `AffineBinaryOpExpr::simplifyAdd` (body outside
the header).  Two constants fold to their wrapped sum; a constant-0
operand yields the other operand; otherwise a canonical `Add` node. -/
def simplifyAdd (a b : AffineExpr) : AffineExpr :=
  if a.isConstant && b.isConstant then .Constant (i64wrap (a.constValue + b.constValue))
  else if a = .Constant 0 then b
  else if b = .Constant 0 then a
  else addNode a b

/-- Modelled from the spec: `AffineBinaryOpExpr::simplifyMul` (body outside
the header).  Two constants fold to their wrapped product; two
dimension-dependent operands are rejected as `InvalidExpression`; a
constant-0 operand yields `Constant 0`; a constant-1 operand yields the
other operand; otherwise a canonical `Mul` node. -/
def simplifyMul (a b : AffineExpr) : Except AffineError AffineExpr :=
  if a.isConstant && b.isConstant then .ok (.Constant (i64wrap (a.constValue * b.constValue)))
  else if !a.isSymbolicOrConstant && !b.isSymbolicOrConstant then .error .InvalidExpression
  else if a = .Constant 0 ∨ b = .Constant 0 then .ok (.Constant 0)
  else if a = .Constant 1 then .ok b
  else if b = .Constant 1 then .ok a
  else .ok (mulNode a b)

/-- Constant folding for the three division-like operators, per the spec:
`floordiv` is the mathematical floor of the quotient, `ceildiv a b` is
`-floordiv (-a) b`, and `mod a b` is `a - b * floordiv a b`.  Returns 0
on the two kinds that never reach it. -/
def divModFold (op : BinKind) (a b : Int) : Int :=
  match op with
  | .FloorDiv => Int.fdiv a b
  | .CeilDiv => -(Int.fdiv (-a) b)
  | .Mod => a - b * Int.fdiv a b
  | _ => 0

/-- Modelled from the spec: `AffineBinaryOpExpr::simplifyFloorDiv`,
`simplifyCeilDiv` and `simplifyMod` (bodies outside the header), which
share this shape.  A dimension-dependent right operand is rejected as
`InvalidExpression`; a constant-0 right operand is rejected as
`DivisionByZero`; two constants fold; a constant-0 left operand yields
`Constant 0`; otherwise a canonical node of the requested kind. -/
def simplifyDivMod (op : BinKind) (a b : AffineExpr) : Except AffineError AffineExpr :=
  if !b.isSymbolicOrConstant then .error .InvalidExpression
  else if b = .Constant 0 then .error .DivisionByZero
  else if a.isConstant && b.isConstant then
    .ok (.Constant (i64wrap (divModFold op a.constValue b.constValue)))
  else if a = .Constant 0 then .ok (.Constant 0)
  else .ok (.BinaryOp op a b)

/-- Modelled from the spec: `AffineBinaryOpExpr::get`, dispatching on the
operator kind to the matching simplifier (Add never fails). -/
def AffineBinaryOpExpr.get (op : BinKind) (lhs rhs : AffineExpr) :
    Except AffineError AffineExpr :=
  match op with
  | .Add => .ok (simplifyAdd lhs rhs)
  | .Mul => simplifyMul lhs rhs
  | .Mod => simplifyDivMod .Mod lhs rhs
  | .FloorDiv => simplifyDivMod .FloorDiv lhs rhs
  | .CeilDiv => simplifyDivMod .CeilDiv lhs rhs

/-- `AffineBinaryOpExpr::getAdd`. -/
def AffineBinaryOpExpr.getAdd (lhs rhs : AffineExpr) : Except AffineError AffineExpr :=
  AffineBinaryOpExpr.get .Add lhs rhs

/-- `AffineBinaryOpExpr::getMul`. -/
def AffineBinaryOpExpr.getMul (lhs rhs : AffineExpr) : Except AffineError AffineExpr :=
  AffineBinaryOpExpr.get .Mul lhs rhs

/-- `AffineBinaryOpExpr::getFloorDiv`. -/
def AffineBinaryOpExpr.getFloorDiv (lhs rhs : AffineExpr) : Except AffineError AffineExpr :=
  AffineBinaryOpExpr.get .FloorDiv lhs rhs

/-- `AffineBinaryOpExpr::getCeilDiv`. -/
def AffineBinaryOpExpr.getCeilDiv (lhs rhs : AffineExpr) : Except AffineError AffineExpr :=
  AffineBinaryOpExpr.get .CeilDiv lhs rhs

/-- `AffineBinaryOpExpr::getMod`. -/
def AffineBinaryOpExpr.getMod (lhs rhs : AffineExpr) : Except AffineError AffineExpr :=
  AffineBinaryOpExpr.get .Mod lhs rhs

/-- Modelled from the spec: `AffineBinaryOpExpr::getSub` (body outside the
header) — subtraction is expressed as `getAdd(lhs, getMul(rhs, -1))`;
there is no Subtract node kind. -/
def AffineBinaryOpExpr.getSub (lhs rhs : AffineExpr) : Except AffineError AffineExpr :=
  (AffineBinaryOpExpr.getMul rhs (.Constant (-1))).bind
    (fun m => AffineBinaryOpExpr.getAdd lhs m)

/-- The maximal `uint64_t` value, used as the sentinel divisor of
`Constant 0`. -/
def UINT64_MAX : Nat := 2 ^ 64 - 1

/-- Modelled from the spec: `AffineExpr::getLargestKnownDivisor` (body
outside the header).  Constant c gives |c| (Constant 0 the maximal
sentinel); identifiers give 1; Add gives the gcd of its operands'
divisors; Mul multiplies the divisors when one side is
symbolic-or-constant and is conservatively 1 otherwise; FloorDiv/CeilDiv
by a constant c divide when c evenly divides the dividend's divisor and
give 1 otherwise; Mod gives 1. -/
def AffineExpr.getLargestKnownDivisor : AffineExpr → Nat
  | .Constant v => if v = 0 then UINT64_MAX else v.natAbs
  | .DimId _ => 1
  | .SymbolId _ => 1
  | .BinaryOp .Add l r => Nat.gcd l.getLargestKnownDivisor r.getLargestKnownDivisor
  | .BinaryOp .Mul l r =>
      if l.isSymbolicOrConstant || r.isSymbolicOrConstant then
        l.getLargestKnownDivisor * r.getLargestKnownDivisor
      else 1
  | .BinaryOp .FloorDiv l r =>
      match r with
      | .Constant c =>
          if c = 0 then 1
          else if l.getLargestKnownDivisor % c.natAbs = 0 then
            l.getLargestKnownDivisor / c.natAbs
          else 1
      | _ => 1
  | .BinaryOp .CeilDiv l r =>
      match r with
      | .Constant c =>
          if c = 0 then 1
          else if l.getLargestKnownDivisor % c.natAbs = 0 then
            l.getLargestKnownDivisor / c.natAbs
          else 1
      | _ => 1
  | .BinaryOp .Mod _ _ => 1

/-- Modelled from the spec: `AffineExpr::isMultipleOf` (body outside the
header): true iff `getLargestKnownDivisor() % factor == 0`. -/
def AffineExpr.isMultipleOf (e : AffineExpr) (factor : Int) : Bool :=
  (e.getLargestKnownDivisor : Int) % factor == 0

/-- Modelled from the spec: the `MLIRContext` interning store, as the list
of canonical nodes in creation order; a node reference is an index into
this list, so identity of instances is equality of indices.  In the C++
store the key of a `BinaryOp` holds operand identities rather than whole
subtrees, but operands are themselves already canonical, so the two keys
coincide. -/
abbrev Context := List AffineExpr

/-- Modelled from the spec: `intern(key)` — look the structural key up; if
present return the existing instance, otherwise allocate, store and
return the new instance. -/
def lookupIdx (ctx : List AffineExpr) (e : AffineExpr) : Option Nat :=
  match ctx with
  | [] => none
  | x :: xs => if x = e then some 0 else (lookupIdx xs e).map (· + 1)

/-- Modelled from the spec: `intern(key)` — look the structural key up; if
present return the existing instance, otherwise allocate, store and
return the new instance. -/
def intern (ctx : Context) (e : AffineExpr) : Context × Nat :=
  match lookupIdx ctx e with
  | some i => (ctx, i)
  | none => (ctx ++ [e], List.length ctx)

deriving instance DecidableEq for Except

/-! ### Helper lemmas -/

lemma lookupIdx_none_iff (ctx : List AffineExpr) (e : AffineExpr) :
    lookupIdx ctx e = none ↔ e ∉ ctx := by
  induction ctx with
  | nil => simp [lookupIdx]
  | cons x xs ih =>
    by_cases hx : x = e
    · simp [lookupIdx, hx]
    · simp [lookupIdx, hx, Option.map_eq_none, ih, Ne.symm hx]

lemma lookupIdx_append_self (ctx : List AffineExpr) (e : AffineExpr)
    (h : lookupIdx ctx e = none) :
    lookupIdx (ctx ++ [e]) e = some ctx.length := by
  induction ctx with
  | nil => simp [lookupIdx]
  | cons x xs ih =>
    rw [show lookupIdx (x :: xs) e
        = if x = e then some 0 else (lookupIdx xs e).map (· + 1) from rfl] at h
    by_cases hx : x = e
    · rw [if_pos hx] at h
      exact absurd h (by simp)
    · rw [if_neg hx] at h
      have h2 : lookupIdx xs e = none := by
        rcases hy : lookupIdx xs e with _ | y
        · rfl
        · rw [hy] at h
          exact absurd h (by simp)
      show lookupIdx (x :: (xs ++ [e])) e = some (xs.length + 1)
      rw [show lookupIdx (x :: (xs ++ [e])) e
          = if x = e then some 0 else (lookupIdx (xs ++ [e]) e).map (· + 1) from rfl,
        if_neg hx, ih h2]
      rfl

lemma orderingThen_swap (o1 o2 : Ordering) : (o1.then o2).swap = o1.swap.then o2.swap := by
  cases o1 <;> cases o2 <;> decide

lemma orderingThen_eq_eq (o1 o2 : Ordering) : o1.then o2 = .eq ↔ o1 = .eq ∧ o2 = .eq := by
  cases o1 <;> cases o2 <;> decide

lemma natCmp_swap (x y : Nat) : (natCmp x y).swap = natCmp y x := by
  unfold natCmp
  split_ifs <;> first | rfl | omega

lemma natCmp_eq_eq (x y : Nat) : natCmp x y = .eq ↔ x = y := by
  unfold natCmp
  split_ifs <;> simp_all <;> omega

lemma intCmp_swap (x y : Int) : (intCmp x y).swap = intCmp y x := by
  unfold intCmp
  split_ifs <;> first | rfl | omega

lemma intCmp_eq_eq (x y : Int) : intCmp x y = .eq ↔ x = y := by
  unfold intCmp
  split_ifs <;> simp_all <;> omega

lemma binKindCmp_swap (k1 k2 : BinKind) :
    (natCmp k1.ordinal k2.ordinal).swap = natCmp k2.ordinal k1.ordinal := by
  cases k1 <;> cases k2 <;> decide

lemma binKindCmp_eq_eq (k1 k2 : BinKind) :
    natCmp k1.ordinal k2.ordinal = .eq ↔ k1 = k2 := by
  cases k1 <;> cases k2 <;> decide

lemma exprCmp_swap (a b : AffineExpr) : (exprCmp a b).swap = exprCmp b a := by
  induction a generalizing b with
  | Constant v =>
    cases b with
    | Constant w => exact intCmp_swap v w
    | DimId p => rfl
    | SymbolId p => rfl
    | BinaryOp k l r => rfl
  | DimId p =>
    cases b with
    | Constant w => rfl
    | DimId q => exact natCmp_swap p q
    | SymbolId q => rfl
    | BinaryOp k l r => rfl
  | SymbolId p =>
    cases b with
    | Constant w => rfl
    | DimId q => rfl
    | SymbolId q => exact natCmp_swap p q
    | BinaryOp k l r => rfl
  | BinaryOp k1 l1 r1 ihl ihr =>
    cases b with
    | Constant w => rfl
    | DimId q => rfl
    | SymbolId q => rfl
    | BinaryOp k2 l2 r2 =>
      show ((natCmp k1.ordinal k2.ordinal).then ((exprCmp l1 l2).then (exprCmp r1 r2))).swap
        = (natCmp k2.ordinal k1.ordinal).then ((exprCmp l2 l1).then (exprCmp r2 r1))
      rw [orderingThen_swap, orderingThen_swap, binKindCmp_swap, ihl, ihr]

lemma exprCmp_eq_eq (a b : AffineExpr) : exprCmp a b = .eq ↔ a = b := by
  induction a generalizing b with
  | Constant v =>
    cases b <;> simp [exprCmp, intCmp_eq_eq, natCmp, AffineExpr.rank]
  | DimId p =>
    cases b with
    | Constant w => simp [exprCmp, natCmp, AffineExpr.rank]
    | DimId q => simp [exprCmp, natCmp_eq_eq]
    | SymbolId q => simp [exprCmp, natCmp, AffineExpr.rank]
    | BinaryOp k l r => simp [exprCmp, natCmp, AffineExpr.rank]
  | SymbolId p =>
    cases b with
    | Constant w => simp [exprCmp, natCmp, AffineExpr.rank]
    | DimId q => simp [exprCmp, natCmp, AffineExpr.rank]
    | SymbolId q => simp [exprCmp, natCmp_eq_eq]
    | BinaryOp k l r => simp [exprCmp, natCmp, AffineExpr.rank]
  | BinaryOp k1 l1 r1 ihl ihr =>
    cases b with
    | Constant w => simp [exprCmp, natCmp, AffineExpr.rank]
    | DimId q => simp [exprCmp, natCmp, AffineExpr.rank]
    | SymbolId q => simp [exprCmp, natCmp, AffineExpr.rank]
    | BinaryOp k2 l2 r2 =>
      show (natCmp k1.ordinal k2.ordinal).then ((exprCmp l1 l2).then (exprCmp r1 r2)) = .eq ↔ _
      simp [orderingThen_eq_eq, binKindCmp_eq_eq, ihl, ihr, and_assoc]

lemma addNode_comm (a b : AffineExpr) : addNode a b = addNode b a := by
  unfold addNode
  rcases h : exprCmp a b with _ | _ | _
  · have hb : exprCmp b a = .gt := by rw [← exprCmp_swap, h]; rfl
    simp [h, hb]
  · have hab : a = b := (exprCmp_eq_eq a b).1 h
    subst hab
    rw [h]
  · have hb : exprCmp b a = .lt := by rw [← exprCmp_swap, h]; rfl
    simp [h, hb]

lemma mulNode_comm (a b : AffineExpr)
    (h : a.isSymbolicOrConstant || b.isSymbolicOrConstant) :
    mulNode a b = mulNode b a := by
  unfold mulNode
  cases ha : a.isSymbolicOrConstant <;> cases hb : b.isSymbolicOrConstant
  · simp [ha, hb] at h
  · simp [ha, hb]
  · simp [ha, hb]
  · rcases hc : exprCmp a b with _ | _ | _
    · have hb2 : exprCmp b a = .gt := by rw [← exprCmp_swap, hc]; rfl
      simp [ha, hb, hc, hb2]
    · have hab : a = b := (exprCmp_eq_eq a b).1 hc
      subst hab
      rw [hc]
    · have hb2 : exprCmp b a = .lt := by rw [← exprCmp_swap, hc]; rfl
      simp [ha, hb, hc, hb2]

lemma isConstant_false_ne (e : AffineExpr) (h : e.isConstant = false) (v : Int) :
    e ≠ .Constant v := by
  intro he
  subst he
  simp [AffineExpr.isConstant] at h

lemma isConstant_exists (e : AffineExpr) (h : e.isConstant = true) :
    ∃ v, e = .Constant v := by
  cases e <;> simp_all [AffineExpr.isConstant]

lemma sOC_of_isConstant (e : AffineExpr) (h : e.isConstant = true) :
    e.isSymbolicOrConstant = true := by
  rcases isConstant_exists e h with ⟨v, rfl⟩
  rfl

lemma exprCmp_lt_constant (b : AffineExpr) (hb : b.isConstant = false) (w : Int) :
    exprCmp b (.Constant w) = .lt := by
  cases b <;> first | rfl | simp [AffineExpr.isConstant] at hb

lemma divModFold_zero (op : BinKind) (w : Int) : divModFold op 0 w = 0 := by
  cases op <;> simp [divModFold, Int.zero_fdiv]

lemma pow63_eq : (2 : Int) ^ 63 = 9223372036854775808 := by norm_num

lemma pow64_eq : (2 : Int) ^ 64 = 18446744073709551616 := by norm_num

lemma i64wrap_eq_self {v : Int} (h : inInt64 v = true) : i64wrap v = v := by
  unfold inInt64 at h
  simp only [Bool.and_eq_true, decide_eq_true_eq] at h
  unfold i64wrap
  rw [pow63_eq] at h
  rw [pow63_eq, pow64_eq]
  omega

lemma i64wrap_spec (x : Int) :
    i64wrap x % 2 ^ 64 = x % 2 ^ 64 ∧ inInt64 (i64wrap x) = true := by
  unfold i64wrap inInt64
  simp only [Bool.and_eq_true, decide_eq_true_eq]
  rw [pow63_eq, pow64_eq]
  refine ⟨by omega, by omega, by omega⟩

lemma fdiv_floor {l r : Int} (hr : 0 < r) :
    r * Int.fdiv l r ≤ l ∧ l < r * (Int.fdiv l r + 1) := by
  rw [Int.fdiv_eq_ediv _ (le_of_lt hr)]
  have h1 := Int.ediv_add_emod l r
  have h2 := Int.emod_nonneg l (ne_of_gt hr)
  have h3 := Int.emod_lt_of_pos l hr
  refine ⟨by linarith, ?_⟩
  rw [mul_add, mul_one]
  linarith

lemma simplifyAdd_comm (a b : AffineExpr) : simplifyAdd a b = simplifyAdd b a := by
  unfold simplifyAdd
  cases ha : a.isConstant <;> cases hb : b.isConstant
  · simp [ha, hb, isConstant_false_ne a ha 0, isConstant_false_ne b hb 0, addNode_comm a b]
  · rcases isConstant_exists b hb with ⟨w, rfl⟩
    by_cases hw : w = 0 <;>
      simp [ha, AffineExpr.isConstant, isConstant_false_ne a ha 0, hw, addNode_comm a]
  · rcases isConstant_exists a ha with ⟨v, rfl⟩
    by_cases hv : v = 0 <;>
      simp [hb, AffineExpr.isConstant, isConstant_false_ne b hb 0, hv, addNode_comm _ b]
  · rcases isConstant_exists a ha with ⟨v, rfl⟩
    rcases isConstant_exists b hb with ⟨w, rfl⟩
    simp [AffineExpr.isConstant, AffineExpr.constValue, Int.add_comm]

lemma simplifyMul_comm (a b : AffineExpr) : simplifyMul a b = simplifyMul b a := by
  unfold simplifyMul
  cases ha : a.isConstant <;> cases hb : b.isConstant
  · cases hsa : a.isSymbolicOrConstant <;> cases hsb : b.isSymbolicOrConstant <;>
      simp [ha, hb, hsa, hsb,
        isConstant_false_ne a ha 0, isConstant_false_ne b hb 0,
        isConstant_false_ne a ha 1, isConstant_false_ne b hb 1] <;>
      exact mulNode_comm a b (by simp [hsa, hsb])
  · rcases isConstant_exists b hb with ⟨w, rfl⟩
    have hsb : (AffineExpr.Constant w).isSymbolicOrConstant = true := rfl
    by_cases hw0 : w = 0
    · subst hw0
      simp [ha, AffineExpr.isConstant, AffineExpr.isSymbolicOrConstant]
    · by_cases hw1 : w = 1
      · subst hw1
        simp [ha, AffineExpr.isConstant, AffineExpr.isSymbolicOrConstant,
          isConstant_false_ne a ha 0, isConstant_false_ne a ha 1]
      · simp [ha, AffineExpr.isConstant, AffineExpr.isSymbolicOrConstant, hw0, hw1,
          isConstant_false_ne a ha 0, isConstant_false_ne a ha 1]
        exact mulNode_comm a _ (by simp [hsb])
  · rcases isConstant_exists a ha with ⟨v, rfl⟩
    have hsa : (AffineExpr.Constant v).isSymbolicOrConstant = true := rfl
    by_cases hv0 : v = 0
    · subst hv0
      simp [hb, AffineExpr.isConstant, AffineExpr.isSymbolicOrConstant]
    · by_cases hv1 : v = 1
      · subst hv1
        simp [hb, AffineExpr.isConstant, AffineExpr.isSymbolicOrConstant,
          isConstant_false_ne b hb 0, isConstant_false_ne b hb 1]
      · simp [hb, AffineExpr.isConstant, AffineExpr.isSymbolicOrConstant, hv0, hv1,
          isConstant_false_ne b hb 0, isConstant_false_ne b hb 1]
        exact mulNode_comm _ b (by simp [hsa])
  · rcases isConstant_exists a ha with ⟨v, rfl⟩
    rcases isConstant_exists b hb with ⟨w, rfl⟩
    simp [AffineExpr.isConstant, AffineExpr.constValue, Int.mul_comm]

lemma simplifyDivMod_invalid_iff (op : BinKind) (a b : AffineExpr) :
    simplifyDivMod op a b = .error .InvalidExpression
      ↔ b.isSymbolicOrConstant = false := by
  unfold simplifyDivMod
  split_ifs <;> simp_all

lemma simplifyDivMod_divzero_iff (op : BinKind) (a b : AffineExpr) :
    simplifyDivMod op a b = .error .DivisionByZero
      ↔ b.isSymbolicOrConstant = true ∧ b = .Constant 0 := by
  unfold simplifyDivMod
  split_ifs <;> simp_all

lemma simplifyMul_invalid_iff (a b : AffineExpr) :
    simplifyMul a b = .error .InvalidExpression
      ↔ a.isSymbolicOrConstant = false ∧ b.isSymbolicOrConstant = false := by
  unfold simplifyMul
  split_ifs with h1 h2 <;> simp_all
  exact fun h => absurd (sOC_of_isConstant a (by simp_all)) (by simp_all)

lemma simplifyMul_ne_divzero (a b : AffineExpr) :
    simplifyMul a b ≠ .error .DivisionByZero := by
  unfold simplifyMul
  split_ifs <;> simp

lemma fmod_range {l r : Int} (hr : 0 < r) :
    0 ≤ l - r * Int.fdiv l r ∧ l - r * Int.fdiv l r < r := by
  rw [Int.fdiv_eq_ediv _ (le_of_lt hr)]
  have h1 := Int.ediv_add_emod l r
  have h2 := Int.emod_nonneg l (ne_of_gt hr)
  have h3 := Int.emod_lt_of_pos l hr
  constructor <;> linarith

lemma i64wrap_zero : i64wrap 0 = 0 := by
  show (0 + 2 ^ 63) % 2 ^ 64 - 2 ^ 63 = (0 : Int)
  rw [pow63_eq, pow64_eq]
  omega

lemma isConstant_constant (v : Int) : (AffineExpr.Constant v).isConstant = true := rfl

lemma sOC_constant (v : Int) : (AffineExpr.Constant v).isSymbolicOrConstant = true := rfl

lemma constValue_constant (v : Int) : (AffineExpr.Constant v).constValue = v := rfl

lemma simplifyDivMod_zero_left (op : BinKind) (d : AffineExpr)
    (hd : d.isSymbolicOrConstant = true) (hd0 : d ≠ .Constant 0) :
    simplifyDivMod op (.Constant 0) d = .ok (.Constant 0) := by
  cases hdc : d.isConstant
  · simp [simplifyDivMod, hd, hd0, hdc, isConstant_constant]
  · rcases isConstant_exists d hdc with ⟨w, rfl⟩
    simp [simplifyDivMod, hd, hd0, isConstant_constant, constValue_constant,
      divModFold_zero, i64wrap_zero]

/-! ### Claim theorems -/

/-- C1: hash-consing invariant — in a duplicate-free interning store, two
owned nodes are structurally equal iff they are the same instance (same
index), interning preserves that invariant, and re-interning the same
structural shape (two independent constructions of `dim(0) + 3`, say)
returns the same instance without growing the store; handle equality is
exactly identity (index) comparison of the referenced node. -/
theorem hash_consing_invariant (ctx : Context) (h : ctx.Nodup) (e : AffineExpr)
    (i j : Fin ctx.length) :
    (ctx.get i = ctx.get j ↔ i = j)
    ∧ (intern ctx e).1.Nodup
    ∧ intern (intern ctx e).1 e = intern ctx e := by
  refine ⟨h.get_inj_iff, ?_, ?_⟩
  · rcases hf : lookupIdx ctx e with _ | i2
    · have hne : e ∉ ctx := (lookupIdx_none_iff ctx e).1 hf
      simp [intern, hf, List.nodup_append, h, List.disjoint_singleton, hne]
    · simp [intern, hf, h]
  · rcases hf : lookupIdx ctx e with _ | i2
    · have h2 := lookupIdx_append_self ctx e hf
      simp [intern, hf, h2]
    · simp [intern, hf]

theorem hash_consing_invariant_witness :
    ([AffineExpr.DimId 0] : Context).Nodup
    ∧ (intern [AffineExpr.DimId 0] (simplifyAdd (.DimId 0) (.Constant 3))).1.Nodup
    ∧ intern (intern [AffineExpr.DimId 0] (simplifyAdd (.DimId 0) (.Constant 3))).1
        (simplifyAdd (.DimId 0) (.Constant 3))
      = intern [AffineExpr.DimId 0] (simplifyAdd (.DimId 0) (.Constant 3)) :=
  ⟨by decide,
   (hash_consing_invariant [AffineExpr.DimId 0] (by decide)
      (simplifyAdd (.DimId 0) (.Constant 3)) ⟨0, by decide⟩ ⟨0, by decide⟩).2.1,
   (hash_consing_invariant [AffineExpr.DimId 0] (by decide)
      (simplifyAdd (.DimId 0) (.Constant 3)) ⟨0, by decide⟩ ⟨0, by decide⟩).2.2⟩

/-- C2: constant folding — two Constants fold under Add to their 64-bit
wrapped sum (congruent mod 2^64 and within int64 range), under Mul to
their wrapped product, and under FloorDiv/CeilDiv/Mod (for a positive
divisor) by the floor conventions: floordiv is the mathematical floor
(`r * q ≤ l < r * (q + 1)`), ceildiv a b = -floordiv(-a, b), and
mod a b = a - b * floordiv a b, which lies in [0, b); with the concrete
instances floordiv(7,2)=3, floordiv(-7,2)=-4, ceildiv(7,2)=4, mod(7,2)=1,
mod(-7,2)=1, 3+4=7, 3*4=12. -/
theorem constant_folding (l r : Int) :
    simplifyAdd (.Constant l) (.Constant r) = .Constant (i64wrap (l + r))
    ∧ i64wrap (l + r) % 2 ^ 64 = (l + r) % 2 ^ 64
    ∧ inInt64 (i64wrap (l + r)) = true
    ∧ simplifyMul (.Constant l) (.Constant r) = .ok (.Constant (i64wrap (l * r)))
    ∧ i64wrap (l * r) % 2 ^ 64 = (l * r) % 2 ^ 64
    ∧ (0 < r →
        AffineBinaryOpExpr.get .FloorDiv (.Constant l) (.Constant r)
            = .ok (.Constant (i64wrap (Int.fdiv l r)))
        ∧ r * Int.fdiv l r ≤ l
        ∧ l < r * (Int.fdiv l r + 1)
        ∧ AffineBinaryOpExpr.get .CeilDiv (.Constant l) (.Constant r)
            = .ok (.Constant (i64wrap (-(Int.fdiv (-l) r))))
        ∧ divModFold .CeilDiv l r = -(divModFold .FloorDiv (-l) r)
        ∧ AffineBinaryOpExpr.get .Mod (.Constant l) (.Constant r)
            = .ok (.Constant (i64wrap (l - r * Int.fdiv l r)))
        ∧ divModFold .Mod l r = l - r * divModFold .FloorDiv l r
        ∧ 0 ≤ divModFold .Mod l r
        ∧ divModFold .Mod l r < r)
    ∧ AffineBinaryOpExpr.get .FloorDiv (.Constant 7) (.Constant 2) = .ok (.Constant 3)
    ∧ AffineBinaryOpExpr.get .FloorDiv (.Constant (-7)) (.Constant 2) = .ok (.Constant (-4))
    ∧ AffineBinaryOpExpr.get .CeilDiv (.Constant 7) (.Constant 2) = .ok (.Constant 4)
    ∧ AffineBinaryOpExpr.get .Mod (.Constant 7) (.Constant 2) = .ok (.Constant 1)
    ∧ AffineBinaryOpExpr.get .Mod (.Constant (-7)) (.Constant 2) = .ok (.Constant 1)
    ∧ simplifyAdd (.Constant 3) (.Constant 4) = .Constant 7
    ∧ simplifyMul (.Constant 3) (.Constant 4) = .ok (.Constant 12) := by
  refine ⟨rfl, (i64wrap_spec (l + r)).1, (i64wrap_spec (l + r)).2, rfl,
    (i64wrap_spec (l * r)).1, ?_, by decide, by decide, by decide, by decide,
    by decide, by decide, by decide⟩
  intro hr
  have hr0 : r ≠ 0 := ne_of_gt hr
  have hfl := fdiv_floor (l := l) hr
  have hfm := fmod_range (l := l) hr
  refine ⟨?_, hfl.1, hfl.2, ?_, rfl, ?_, rfl, hfm.1, hfm.2⟩ <;>
  simp [AffineBinaryOpExpr.get, simplifyDivMod, AffineExpr.isSymbolicOrConstant,
    AffineExpr.isConstant, AffineExpr.constValue, divModFold, hr0]

theorem constant_folding_witness :
    simplifyAdd (.Constant 3) (.Constant (-4)) = .Constant (i64wrap (3 + -4))
    ∧ simplifyMul (.Constant 3) (.Constant 0) = .ok (.Constant (i64wrap (3 * 0)))
    ∧ (0 : Int) < 2
    ∧ AffineBinaryOpExpr.get .FloorDiv (.Constant 7) (.Constant 2)
        = .ok (.Constant (i64wrap (Int.fdiv 7 2))) :=
  ⟨(constant_folding 3 (-4)).1, (constant_folding 3 0).2.2.2.1, by decide,
   ((constant_folding 7 2).2.2.2.2.2.1 (by decide)).1⟩

/-- C3: construction failures — a Mul of two dimension-dependent operands
fails with InvalidExpression and a Mul never fails with DivisionByZero; a
FloorDiv/CeilDiv/Mod fails with InvalidExpression exactly when its right
operand is dimension-dependent and with DivisionByZero exactly when its
right operand is the Constant 0 (and symbolic-or-constant); Add never
fails; `dim(0) * dim(1)` and `dim(0) mod Constant(0)` are the rejected
examples; and these two are the only failure kinds. -/
theorem construction_failures (lhs rhs : AffineExpr) :
    (AffineBinaryOpExpr.getMul lhs rhs = .error .InvalidExpression
      ↔ lhs.isSymbolicOrConstant = false ∧ rhs.isSymbolicOrConstant = false)
    ∧ AffineBinaryOpExpr.getMul lhs rhs ≠ .error .DivisionByZero
    ∧ (AffineBinaryOpExpr.getFloorDiv lhs rhs = .error .InvalidExpression
      ↔ rhs.isSymbolicOrConstant = false)
    ∧ (AffineBinaryOpExpr.getFloorDiv lhs rhs = .error .DivisionByZero
      ↔ rhs.isSymbolicOrConstant = true ∧ rhs = .Constant 0)
    ∧ (AffineBinaryOpExpr.getCeilDiv lhs rhs = .error .InvalidExpression
      ↔ rhs.isSymbolicOrConstant = false)
    ∧ (AffineBinaryOpExpr.getCeilDiv lhs rhs = .error .DivisionByZero
      ↔ rhs.isSymbolicOrConstant = true ∧ rhs = .Constant 0)
    ∧ (AffineBinaryOpExpr.getMod lhs rhs = .error .InvalidExpression
      ↔ rhs.isSymbolicOrConstant = false)
    ∧ (AffineBinaryOpExpr.getMod lhs rhs = .error .DivisionByZero
      ↔ rhs.isSymbolicOrConstant = true ∧ rhs = .Constant 0)
    ∧ AffineBinaryOpExpr.getAdd lhs rhs = .ok (simplifyAdd lhs rhs)
    ∧ AffineBinaryOpExpr.getMul (.DimId 0) (.DimId 1) = .error .InvalidExpression
    ∧ AffineBinaryOpExpr.getMod (.DimId 0) (.Constant 0) = .error .DivisionByZero
    ∧ (∀ err : AffineError, err = .InvalidExpression ∨ err = .DivisionByZero) :=
  ⟨simplifyMul_invalid_iff lhs rhs, simplifyMul_ne_divzero lhs rhs,
   simplifyDivMod_invalid_iff .FloorDiv lhs rhs,
   simplifyDivMod_divzero_iff .FloorDiv lhs rhs,
   simplifyDivMod_invalid_iff .CeilDiv lhs rhs,
   simplifyDivMod_divzero_iff .CeilDiv lhs rhs,
   simplifyDivMod_invalid_iff .Mod lhs rhs,
   simplifyDivMod_divzero_iff .Mod lhs rhs,
   rfl, by decide, by decide,
   fun err => by cases err <;> simp⟩

/-- C4: getLargestKnownDivisor — Constant c gives |c| with Constant 0
giving the maximal sentinel; identifiers give 1; Add gives the gcd of the
operand divisors; Mul multiplies the divisors when one side is
symbolic-or-constant and gives 1 otherwise; FloorDiv/CeilDiv by a nonzero
Constant c divide when c evenly divides the dividend divisor and give 1
otherwise; Mod gives 1; isMultipleOf(factor) holds exactly when the
divisor is 0 modulo factor; hence `6 * dim(0)` has divisor 6 and is a
multiple of 3 while `6 * dim(0) + 1` is not. -/
theorem largest_known_divisor (v c : Int) (p : Nat) (a b : AffineExpr) (factor : Int)
    (hv : v ≠ 0) (hc : c ≠ 0) :
    (AffineExpr.Constant v).getLargestKnownDivisor = v.natAbs
    ∧ (AffineExpr.Constant 0).getLargestKnownDivisor = UINT64_MAX
    ∧ (AffineExpr.DimId p).getLargestKnownDivisor = 1
    ∧ (AffineExpr.SymbolId p).getLargestKnownDivisor = 1
    ∧ (AffineExpr.BinaryOp .Add a b).getLargestKnownDivisor
        = Nat.gcd a.getLargestKnownDivisor b.getLargestKnownDivisor
    ∧ ((a.isSymbolicOrConstant || b.isSymbolicOrConstant) = true →
        (AffineExpr.BinaryOp .Mul a b).getLargestKnownDivisor
          = a.getLargestKnownDivisor * b.getLargestKnownDivisor)
    ∧ ((a.isSymbolicOrConstant || b.isSymbolicOrConstant) = false →
        (AffineExpr.BinaryOp .Mul a b).getLargestKnownDivisor = 1)
    ∧ (AffineExpr.BinaryOp .FloorDiv a (.Constant c)).getLargestKnownDivisor
        = (if a.getLargestKnownDivisor % c.natAbs = 0
            then a.getLargestKnownDivisor / c.natAbs else 1)
    ∧ (AffineExpr.BinaryOp .CeilDiv a (.Constant c)).getLargestKnownDivisor
        = (if a.getLargestKnownDivisor % c.natAbs = 0
            then a.getLargestKnownDivisor / c.natAbs else 1)
    ∧ (AffineExpr.BinaryOp .Mod a b).getLargestKnownDivisor = 1
    ∧ (a.isMultipleOf factor = true
        ↔ (a.getLargestKnownDivisor : Int) % factor = 0)
    ∧ AffineBinaryOpExpr.getMul (.Constant 6) (.DimId 0)
        = .ok (.BinaryOp .Mul (.DimId 0) (.Constant 6))
    ∧ (AffineExpr.BinaryOp .Mul (.DimId 0) (.Constant 6)).getLargestKnownDivisor = 6
    ∧ (AffineExpr.BinaryOp .Mul (.DimId 0) (.Constant 6)).isMultipleOf 3 = true
    ∧ AffineBinaryOpExpr.getAdd (.BinaryOp .Mul (.DimId 0) (.Constant 6)) (.Constant 1)
        = .ok (.BinaryOp .Add (.BinaryOp .Mul (.DimId 0) (.Constant 6)) (.Constant 1))
    ∧ (AffineExpr.BinaryOp .Add (.BinaryOp .Mul (.DimId 0) (.Constant 6))
        (.Constant 1)).isMultipleOf 3 = false := by
  refine ⟨by simp [AffineExpr.getLargestKnownDivisor, hv], rfl, rfl, rfl, rfl,
    ?_, ?_,
    by simp [AffineExpr.getLargestKnownDivisor, hc],
    by simp [AffineExpr.getLargestKnownDivisor, hc],
    rfl, ?_, by decide, by decide, by decide, by decide, by decide⟩
  · intro h
    simp [AffineExpr.getLargestKnownDivisor, h]
  · intro h
    simp only [Bool.or_eq_false_iff] at h
    simp [AffineExpr.getLargestKnownDivisor, h.1, h.2]
  · unfold AffineExpr.isMultipleOf
    simp [beq_iff_eq]

theorem largest_known_divisor_witness :
    (6 : Int) ≠ 0 ∧ (2 : Int) ≠ 0
    ∧ (AffineExpr.Constant 6).getLargestKnownDivisor = (6 : Int).natAbs
    ∧ (AffineExpr.BinaryOp .Mul (.DimId 0) (.Constant 6)).isMultipleOf 3 = true :=
  ⟨by decide, by decide,
   (largest_known_divisor 6 2 0 (.DimId 0) (.DimId 0) 3 (by decide) (by decide)).1,
   (largest_known_divisor 6 2 0 (.DimId 0) (.DimId 0) 3 (by decide)
      (by decide)).2.2.2.2.2.2.2.2.2.2.2.2.2.1⟩

/-- C5: purity asymmetry — isPureAffine is true on all leaves, on Add iff
both operands are pure, on Mul iff both are pure and one operand is a
Constant, on FloorDiv/CeilDiv/Mod iff the left operand is pure and the
right operand is a Constant; `dim(0) floordiv symbol(0)` constructs
successfully yet is not pure, while `dim(0) floordiv 4` constructs and is
pure. -/
theorem purity_asymmetry (v : Int) (p : Nat) (l r : AffineExpr) :
    (AffineExpr.Constant v).isPureAffine = true
    ∧ (AffineExpr.DimId p).isPureAffine = true
    ∧ (AffineExpr.SymbolId p).isPureAffine = true
    ∧ (AffineExpr.BinaryOp .Add l r).isPureAffine = (l.isPureAffine && r.isPureAffine)
    ∧ (AffineExpr.BinaryOp .Mul l r).isPureAffine
        = (l.isPureAffine && r.isPureAffine && (l.isConstant || r.isConstant))
    ∧ (AffineExpr.BinaryOp .FloorDiv l r).isPureAffine = (l.isPureAffine && r.isConstant)
    ∧ (AffineExpr.BinaryOp .CeilDiv l r).isPureAffine = (l.isPureAffine && r.isConstant)
    ∧ (AffineExpr.BinaryOp .Mod l r).isPureAffine = (l.isPureAffine && r.isConstant)
    ∧ AffineBinaryOpExpr.getFloorDiv (.DimId 0) (.SymbolId 0)
        = .ok (.BinaryOp .FloorDiv (.DimId 0) (.SymbolId 0))
    ∧ (AffineExpr.BinaryOp .FloorDiv (.DimId 0) (.SymbolId 0)).isPureAffine = false
    ∧ AffineBinaryOpExpr.getFloorDiv (.DimId 0) (.Constant 4)
        = .ok (.BinaryOp .FloorDiv (.DimId 0) (.Constant 4))
    ∧ (AffineExpr.BinaryOp .FloorDiv (.DimId 0) (.Constant 4)).isPureAffine = true :=
  ⟨rfl, rfl, rfl, rfl, rfl, rfl, rfl, rfl, by decide, rfl, by decide, rfl⟩

/-- C6: isSymbolicOrConstant — true on Constant and SymbolId, false on
DimId, and on BinaryOp true iff both operands are symbolic-or-constant;
the built expression `symbol(0) * 3 + 5` yields true and
`dim(0) + symbol(0)` yields false. -/
theorem symbolic_or_constant (v : Int) (p : Nat) (k : BinKind) (l r : AffineExpr) :
    (AffineExpr.Constant v).isSymbolicOrConstant = true
    ∧ (AffineExpr.SymbolId p).isSymbolicOrConstant = true
    ∧ (AffineExpr.DimId p).isSymbolicOrConstant = false
    ∧ (AffineExpr.BinaryOp k l r).isSymbolicOrConstant
        = (l.isSymbolicOrConstant && r.isSymbolicOrConstant)
    ∧ AffineBinaryOpExpr.getMul (.SymbolId 0) (.Constant 3)
        = .ok (.BinaryOp .Mul (.SymbolId 0) (.Constant 3))
    ∧ AffineBinaryOpExpr.getAdd (.BinaryOp .Mul (.SymbolId 0) (.Constant 3)) (.Constant 5)
        = .ok (.BinaryOp .Add (.BinaryOp .Mul (.SymbolId 0) (.Constant 3)) (.Constant 5))
    ∧ (AffineExpr.BinaryOp .Add (.BinaryOp .Mul (.SymbolId 0) (.Constant 3))
        (.Constant 5)).isSymbolicOrConstant = true
    ∧ AffineBinaryOpExpr.getAdd (.DimId 0) (.SymbolId 0)
        = .ok (.BinaryOp .Add (.DimId 0) (.SymbolId 0))
    ∧ (AffineExpr.BinaryOp .Add (.DimId 0) (.SymbolId 0)).isSymbolicOrConstant = false :=
  ⟨rfl, rfl, rfl, rfl, by decide, by decide, rfl, by decide, rfl⟩

/-- C7: commutativity reflected in identity — for any two operand handles,
building a + b and b + a produce the same canonical result, likewise
a * b and b * a (including identical failures), so after interning both
orders yield the identical instance. -/
theorem commutativity_identity (a b : AffineExpr) (ctx : Context) :
    simplifyAdd a b = simplifyAdd b a
    ∧ simplifyMul a b = simplifyMul b a
    ∧ AffineBinaryOpExpr.getAdd a b = AffineBinaryOpExpr.getAdd b a
    ∧ AffineBinaryOpExpr.getMul a b = AffineBinaryOpExpr.getMul b a
    ∧ intern ctx (simplifyAdd a b) = intern ctx (simplifyAdd b a) := by
  refine ⟨simplifyAdd_comm a b, simplifyMul_comm a b, ?_, ?_, ?_⟩
  · show Except.ok (simplifyAdd a b) = Except.ok (simplifyAdd b a)
    rw [simplifyAdd_comm a b]
  · show simplifyMul a b = simplifyMul b a
    exact simplifyMul_comm a b
  · rw [simplifyAdd_comm a b]

/-- C8: identity and annihilator rules — x + 0 (and 0 + x) is x itself;
a Mul with a constant-0 operand is Constant 0 and with a constant-1
operand is the other operand; FloorDiv/CeilDiv/Mod with left operand
Constant 0 and a valid (symbolic-or-constant, nonzero) divisor is
Constant 0. -/
theorem identity_annihilator (x d : AffineExpr) (hx : x.wf = true)
    (hd : d.isSymbolicOrConstant = true) (hd0 : d ≠ .Constant 0) :
    simplifyAdd x (.Constant 0) = x
    ∧ simplifyAdd (.Constant 0) x = x
    ∧ simplifyMul x (.Constant 0) = .ok (.Constant 0)
    ∧ simplifyMul (.Constant 0) x = .ok (.Constant 0)
    ∧ simplifyMul x (.Constant 1) = .ok x
    ∧ simplifyMul (.Constant 1) x = .ok x
    ∧ simplifyDivMod .FloorDiv (.Constant 0) d = .ok (.Constant 0)
    ∧ simplifyDivMod .CeilDiv (.Constant 0) d = .ok (.Constant 0)
    ∧ simplifyDivMod .Mod (.Constant 0) d = .ok (.Constant 0) := by
  refine ⟨?_, ?_, ?_, ?_, ?_, ?_,
    simplifyDivMod_zero_left .FloorDiv d hd hd0,
    simplifyDivMod_zero_left .CeilDiv d hd hd0,
    simplifyDivMod_zero_left .Mod d hd hd0⟩ <;>
  cases hxc : x.isConstant
  · simp [simplifyAdd, hxc, isConstant_false_ne x hxc 0, isConstant_constant]
  · rcases isConstant_exists x hxc with ⟨v, rfl⟩
    have hv : inInt64 v = true := by simpa [AffineExpr.wf] using hx
    simp [simplifyAdd, isConstant_constant, constValue_constant, i64wrap_eq_self hv]
  · simp [simplifyAdd, hxc, isConstant_false_ne x hxc 0, isConstant_constant]
  · rcases isConstant_exists x hxc with ⟨v, rfl⟩
    have hv : inInt64 v = true := by simpa [AffineExpr.wf] using hx
    simp [simplifyAdd, isConstant_constant, constValue_constant, i64wrap_eq_self hv]
  · simp [simplifyMul, hxc, isConstant_constant, sOC_constant]
  · rcases isConstant_exists x hxc with ⟨v, rfl⟩
    simp [simplifyMul, isConstant_constant, constValue_constant, i64wrap_zero]
  · simp [simplifyMul, hxc, isConstant_constant, sOC_constant]
  · rcases isConstant_exists x hxc with ⟨v, rfl⟩
    simp [simplifyMul, isConstant_constant, constValue_constant, i64wrap_zero]
  · simp [simplifyMul, hxc, isConstant_constant, sOC_constant,
      isConstant_false_ne x hxc 0, isConstant_false_ne x hxc 1]
  · rcases isConstant_exists x hxc with ⟨v, rfl⟩
    have hv : inInt64 v = true := by simpa [AffineExpr.wf] using hx
    simp [simplifyMul, isConstant_constant, constValue_constant, i64wrap_eq_self hv]
  · simp [simplifyMul, hxc, isConstant_constant, sOC_constant,
      isConstant_false_ne x hxc 0, isConstant_false_ne x hxc 1]
  · rcases isConstant_exists x hxc with ⟨v, rfl⟩
    have hv : inInt64 v = true := by simpa [AffineExpr.wf] using hx
    simp [simplifyMul, isConstant_constant, constValue_constant, i64wrap_eq_self hv]

theorem identity_annihilator_witness :
    (AffineExpr.DimId 0).wf = true
    ∧ (AffineExpr.SymbolId 0).isSymbolicOrConstant = true
    ∧ (AffineExpr.SymbolId 0 : AffineExpr) ≠ .Constant 0
    ∧ simplifyAdd (.DimId 0) (.Constant 0) = .DimId 0 :=
  ⟨rfl, rfl, by decide,
   (identity_annihilator (.DimId 0) (.SymbolId 0) rfl rfl (by decide)).1⟩

/-- C9 counterexample: building `dim(0) - Constant(3)` yields the Add of
`dim(0)` and `Constant(-3)` — its second addend is a folded Constant, not
"the Mul of b by Constant -1" the claim demands, so the claim's
description of the result shape fails at this input. -/
theorem getSub_shape_counterexample :
    AffineBinaryOpExpr.getSub (.DimId 0) (.Constant 3)
      = .ok (.BinaryOp .Add (.DimId 0) (.Constant (-3)))
    ∧ (AffineExpr.Constant (-3)) ≠ .BinaryOp .Mul (.Constant 3) (.Constant (-1)) :=
  ⟨by decide, by decide⟩

/-- C9 (amended): subtraction is derived, not primitive — a - b is exactly
the addition of a to b multiplied by Constant -1 (same canonical
instance); there is no Subtract node kind; when b is not a Constant the
negated operand is materialized as the node `Mul b (Constant -1)` and the
result is its canonical Add with a, while for a Constant b the Mul folds
to `Constant (-v)` before the Add. -/
theorem subtraction_derived (a b : AffineExpr) (hb : b.isConstant = false) :
    AffineBinaryOpExpr.getSub a b
      = (AffineBinaryOpExpr.getMul b (.Constant (-1))).bind
          (fun m => AffineBinaryOpExpr.getAdd a m)
    ∧ AffineBinaryOpExpr.getMul b (.Constant (-1))
        = .ok (.BinaryOp .Mul b (.Constant (-1)))
    ∧ AffineBinaryOpExpr.getSub a b
        = .ok (simplifyAdd a (.BinaryOp .Mul b (.Constant (-1))))
    ∧ (∀ v : Int, AffineBinaryOpExpr.getSub a (.Constant v)
        = .ok (simplifyAdd a (.Constant (i64wrap (v * -1)))))
    ∧ (∀ k : BinKind,
        k = .Add ∨ k = .Mul ∨ k = .Mod ∨ k = .FloorDiv ∨ k = .CeilDiv) := by
  have hmul : AffineBinaryOpExpr.getMul b (.Constant (-1))
      = .ok (.BinaryOp .Mul b (.Constant (-1))) := by
    show simplifyMul b (.Constant (-1)) = _
    cases hsb : b.isSymbolicOrConstant <;>
      simp [simplifyMul, hb, hsb, isConstant_constant, sOC_constant,
        isConstant_false_ne b hb 0, isConstant_false_ne b hb 1, mulNode,
        exprCmp_lt_constant b hb (-1)]
  refine ⟨rfl, hmul, ?_, fun v => rfl, fun k => by cases k <;> simp⟩
  show (AffineBinaryOpExpr.getMul b (.Constant (-1))).bind
      (fun m => AffineBinaryOpExpr.getAdd a m) = _
  rw [hmul]
  rfl

theorem subtraction_derived_witness :
    (AffineExpr.DimId 1).isConstant = false
    ∧ AffineBinaryOpExpr.getSub (.DimId 0) (.DimId 1)
      = .ok (simplifyAdd (.DimId 0) (.BinaryOp .Mul (.DimId 1) (.Constant (-1)))) :=
  ⟨rfl, (subtraction_derived (.DimId 0) (.DimId 1) rfl).2.2.1⟩

/-- C10: `AffineBinaryOpExpr::classof` — the ordinal comparison against
the `LAST_AFFINE_BINARY_OP` marker is true exactly on the five binary
operator kinds Add, Mul, Mod, FloorDiv, CeilDiv and false exactly on
Constant, DimId, SymbolId; on nodes it agrees with membership in the
binary-operator case. -/
theorem classof_is_binary_membership :
    (∀ k : AffineExprKind,
      (AffineBinaryOpExpr.classof k = true
        ↔ (k = .Add ∨ k = .Mul ∨ k = .Mod ∨ k = .FloorDiv ∨ k = .CeilDiv))
      ∧ (AffineBinaryOpExpr.classof k = false
        ↔ (k = .Constant ∨ k = .DimId ∨ k = .SymbolId)))
    ∧ ∀ e : AffineExpr, AffineBinaryOpExpr.classof e.kindOf = e.isBinaryOp := by
  constructor
  · intro k
    cases k <;> exact ⟨by decide, by decide⟩
  · intro e
    cases e with
    | Constant v => rfl
    | DimId p => rfl
    | SymbolId p => rfl
    | BinaryOp k l r => cases k <;> rfl

end MLIRAffine
